import Mathlib

/-!
Verification of the clar/clay test-driver generator (src/clay.py).

The script scans a directory tree for `*.c` files, recognizes test functions
by the regex `TEST_FUNC_REGEX = r"^(void\s+(test_%s__(\w+))\(\s*(void)?\s*\))\s*\x7b"`
(compiled with `re.MULTILINE`, with the per-file group name spliced in for `%s`),
assembles suites with offsets into a flat callback table, and renders a C driver.

This file gives a shallow embedding of that pipeline:
* the regex is embedded as an explicit scanner (`matchAt`, `scanCore`);
* `_process_test_file` becomes `processTestFile` over an explicit `BuilderState`;
* `os.walk` becomes `walkFiles` over an explicit directory tree;
* `render` becomes a pure function returning the list of written files and
  an optional error.
-/

/-- Character class of the regex token `\s` for a Python 2 pattern without
`re.UNICODE`: ASCII whitespace. -/
def isSpace (c : Char) : Bool :=
  c == ' ' || c == '\t' || c == '\n' || c == '\r' || c == '\x0b' || c == '\x0c'

/-- Character class of the regex token `\w` for a Python 2 pattern without
`re.UNICODE`: letters, digits and underscore. -/
def isWordChar (c : Char) : Bool :=
  c.isAlpha || c.isDigit || c == '_'

/-- Match a literal run of characters at the head of `s`; on success return the
remainder of `s`. -/
def dropLit : List Char → List Char → Option (List Char)
  | [], s => some s
  | _ :: _, [] => none
  | c :: cs, x :: xs => if x = c then dropLit cs xs else none

/-- Match the group name spliced into the pattern by `TEST_FUNC_REGEX % test_name`.
The name is spliced as raw regex text, so its characters are regex syntax: a `.`
is the any-character-but-newline wildcard (no `re.DOTALL`), every other character
this development considers is a literal.  (This embedding is faithful for group
names built from word characters, dots and hyphens; the tree walker derives
group names from file names, so such names are reachable.)  Returns the text the
name-part actually matched together with the remainder. -/
def matchG : List Char → List Char → Option (List Char × List Char)
  | [], s => some ([], s)
  | _ :: _, [] => none
  | g :: gs, x :: xs =>
    if (if g = '.' then x ≠ '\n' else x = g) then
      (matchG gs xs).map (fun p => (x :: p.1, p.2))
    else none

/-- One structural match of `TEST_FUNC_REGEX`: the declaration text (capture
group 1), the fully qualified symbol (group 2) and the short name (group 3). -/
structure RegexMatch where
  declaration : String
  symbol : String
  shortName : String
deriving DecidableEq, Repr

/-- Try to match `(void\s+(test_G__(\w+))\(\s*(void)?\s*\))\s*\x7b` at the head
of `s` (the `^` anchor is handled by the scanner).  Greedy `\s+`/`\s*`/`\w+` are
maximal-munch here; this is equivalent to the backtracking semantics because
the token following each of these runs can never itself satisfy the run's
character class.  The `(void)?` alternative keeps Python's backtracking order:
the literal `void` is tried first, then the empty alternative.  On success,
returns the captures and the total number of characters consumed. -/
def matchAt (G : List Char) (s : List Char) : Option (RegexMatch × Nat) :=
  match dropLit "void".toList s with
  | none => none
  | some r1 =>
    let ws1 := r1.takeWhile isSpace
    let r2 := r1.dropWhile isSpace
    if ws1.isEmpty then none else
    match dropLit "test_".toList r2 with
    | none => none
    | some r3 =>
      match matchG G r3 with
      | none => none
      | some (gtxt, r4) =>
        match dropLit "__".toList r4 with
        | none => none
        | some r5 =>
          let short := r5.takeWhile isWordChar
          let r6 := r5.dropWhile isWordChar
          if short.isEmpty then none else
          match dropLit ['('] r6 with
          | none => none
          | some r7 =>
            let ws2 := r7.takeWhile isSpace
            let r8 := r7.dropWhile isSpace
            let param : Option (List Char × List Char) :=
              match dropLit "void".toList r8 with
              | some rv =>
                let ws3 := rv.takeWhile isSpace
                let rv2 := rv.dropWhile isSpace
                match dropLit [')'] rv2 with
                | some r9 => some ("void".toList ++ ws3, r9)
                | none =>
                  match dropLit [')'] r8 with
                  | some r9 => some (([] : List Char), r9)
                  | none => none
              | none =>
                match dropLit [')'] r8 with
                | some r9 => some (([] : List Char), r9)
                | none => none
            match param with
            | none => none
            | some (ptxt, r9) =>
              let r10 := r9.dropWhile isSpace
              match dropLit ['\x7b'] r10 with
              | none => none
              | some r11 =>
                let decl := "void".toList ++ ws1 ++ "test_".toList ++ gtxt
                    ++ "__".toList ++ short ++ ['('] ++ ws2 ++ ptxt ++ [')']
                some (⟨String.mk decl,
                       String.mk ("test_".toList ++ gtxt ++ "__".toList ++ short),
                       String.mk short⟩,
                      s.length - r11.length)

/-- The scan loop of `re.findall` with `re.MULTILINE`: try the pattern at every
position that begins a line (position 0, or right after a newline), emit each
match and resume scanning right after its end (non-overlapping matches).  The
`skip` counter counts positions still inside the previous match. -/
def scanCore (G : List Char) : List Char → Bool → Nat → List RegexMatch
  | [], _, _ => []
  | c :: rest, _, skip+1 => scanCore G rest (c == '\n') skip
  | c :: rest, atLS, 0 =>
    if atLS then
      match matchAt G (c :: rest) with
      | some (m, n) => m :: scanCore G rest (c == '\n') (n - 1)
      | none => scanCore G rest (c == '\n') 0
    else scanCore G rest (c == '\n') 0

/-- Spec-side matcher, following the spec's words: "produce the ordered sequence
of CandidateFunctions whose declaration matches the structural pattern …
Matching is line-anchored: only declarations beginning a line are recognized."
It reports the structural match at every line-beginning position, never skipping
a position. -/
def scanSpec (G : List Char) : List Char → Bool → List RegexMatch
  | [], _ => []
  | c :: rest, atLS =>
    match atLS, matchAt G (c :: rest) with
    | true, some (m, _) => m :: scanSpec G rest (c == '\n')
    | _, _ => scanSpec G rest (c == '\n')

/-- `regex.findall(contents)` for `regex = re.compile(TEST_FUNC_REGEX % G, re.MULTILINE)`. -/
def findMatches (G contents : String) : List RegexMatch :=
  scanCore G.toList contents.toList true 0

/-- The matcher described by the spec's words (line-anchored structural matches
at every line-beginning position, in text order). -/
def specMatches (G contents : String) : List RegexMatch :=
  scanSpec G.toList contents.toList true

/-- One entry of the flat callback table.  `_process_test_file` renders it as
the C initializer `'\x7b"%s", &%s, %d\x7d' % (short_name, symbol, len(self.suites))`;
the entry is kept structured here and rendered by `renderCallback`. -/
structure Callback where
  shortName : String
  symbol : String
  suiteIdx : Nat
deriving DecidableEq, Repr

/-- One entry of the suite table.  `_process_test_file` renders it through
`TEMPLATE_SUITE`; the substituted values are kept structured here and rendered
by `renderSuiteEntry`.  `initHook`/`cleanupHook` are `none` when the slot still
holds the absent sentinel `"\x7bNULL, NULL, 0\x7d"`. -/
structure SuiteEntry where
  clean_name : String
  initHook : Option Callback
  cleanupHook : Option Callback
  cb_ptr : Nat
  cb_count : Nat
deriving DecidableEq, Repr

/-- The mutable state of `ClayTestBuilder`: `self.declarations`, `self.callbacks`,
`self.suites` and `self.suite_list`. -/
structure BuilderState where
  declarations : List String
  callbacks : List Callback
  suites : List SuiteEntry
  suite_list : List String
deriving DecidableEq, Repr

/-- `ClayTestBuilder.__init__` starts with four empty lists. -/
def initState : BuilderState := ⟨[], [], [], []⟩

/-- The per-file accumulator of `_process_test_file`: the extern declarations
appended to `self.declarations`, the two hook slots, and the local `callbacks`
list. -/
structure FileAcc where
  decls : List String
  initHook : Option Callback
  cleanupHook : Option Callback
  cbs : List Callback
deriving DecidableEq, Repr

/-- `sep.join(parts)` in Python: the parts concatenated with `sep` between
consecutive elements, the empty string for an empty list. -/
def pyJoin (sep : String) : List String → String
  | [] => ""
  | [s] => s
  | s :: rest => s ++ sep ++ pyJoin sep rest

/-- `test_name.replace("_", "::")`. -/
def cleanName (s : String) : String :=
  String.join (s.toList.map (fun c => if c = '_' then "::" else String.singleton c))

/-- The loop body of `_process_test_file`: append the extern declaration, build
the `func_ptr` entry (whose suite index is `len(self.suites)` — constant during
one file), and route it to a hook slot (`if`/`elif`, so a later match with the
same reserved short name overwrites an earlier one) or to the local callback
list. -/
def fileStep (suitesLen : Nat) (a : FileAcc) (m : RegexMatch) : FileAcc :=
  let fp : Callback := ⟨m.shortName, m.symbol, suitesLen⟩
  let a := { a with decls := a.decls ++ ["extern " ++ m.declaration ++ ";"] }
  if m.shortName = "initialize" then { a with initHook := some fp }
  else if m.shortName = "cleanup" then { a with cleanupHook := some fp }
  else { a with cbs := a.cbs ++ [fp] }

/-- `ClayTestBuilder._process_test_file(test_name, contents)`. -/
def processTestFile (st : BuilderState) (test_name contents : String) : BuilderState :=
  let ms := findMatches test_name contents
  let acc := ms.foldl (fileStep st.suites.length) ⟨[], none, none, []⟩
  let st1 := { st with declarations := st.declarations ++ acc.decls }
  if acc.cbs.isEmpty then st1
  else
    let clean := cleanName test_name
    let suite : SuiteEntry :=
      ⟨clean, acc.initHook, acc.cleanupHook, st.callbacks.length, acc.cbs.length⟩
    { st1 with callbacks := st.callbacks ++ acc.cbs,
               suites := st.suites ++ [suite],
               suite_list := st.suite_list ++ [clean] }

mutual

/-- A directory tree handed to `os.walk`: the regular files of a directory
(name, contents) in listing order, and its subdirectories in listing order. -/
inductive Dir where
  | mk (files : List (String × String)) (subdirs : DirList) : Dir

/-- The subdirectory listing of a directory, as a first-order list so that the
walk below is structurally recursive. -/
inductive DirList where
  | dnil : DirList
  | dcons (name : String) (d : Dir) (rest : DirList) : DirList
end

mutual

/-- `os.walk(folder_name)` with the default top-down order: the triple of a
directory (its own files) is yielded before its subdirectories are visited,
and subdirectories are visited in listing order.  Each file is reported with
`module_root`, the list of path components relative to the scan root. -/
def walkFiles : Dir → List (List String × String × String)
  | .mk files subdirs =>
      files.map (fun fc => ([], fc.1, fc.2)) ++ walkDirs subdirs

/-- Walk each subdirectory in listing order, prefixing its name onto the
`module_root` of every file found beneath it. -/
def walkDirs : DirList → List (List String × String × String)
  | .dnil => []
  | .dcons name d rest =>
      (walkFiles d).map (fun t => (name :: t.1, t.2)) ++ walkDirs rest
end

/-- `fnmatch.filter(files, "*.c")` keeps exactly the file names ending in `".c"`
(POSIX `fnmatch` is case-sensitive and `*` matches any run of characters). -/
def matchesDotC (s : String) : Bool :=
  match s.toList.reverse with
  | 'c' :: '.' :: _ => true
  | _ => false

/-- `test_file[:-2]`: drop the final two characters (the `".c"` extension). -/
def stripExt (s : String) : String :=
  String.mk s.toList.dropLast.dropLast

/-- `test_name = "_".join(module_root + [test_file[:-2]])`. -/
def testName (module_root : List String) (test_file : String) : String :=
  pyJoin "_" (module_root ++ [stripExt test_file])

/-- The group names the tree walker derives, one per accepted file, in walk
order. -/
def testGroupNames (root : Dir) : List String :=
  ((walkFiles root).filter (fun t => matchesDotC t.2.1)).map (fun t => testName t.1 t.2.1)

/-- One iteration of the scanning loop of `ClayTestBuilder.__init__`: a file
passing the `*.c` filter is handed to `_process_test_file` under its derived
group name; any other file is skipped. -/
def builderStep (st : BuilderState) (t : List String × String × String) : BuilderState :=
  if matchesDotC t.2.1 then processTestFile st (testName t.1 t.2.1) t.2.2 else st

/-- The scanning loop of `ClayTestBuilder.__init__`: walk the tree, filter
`*.c` files, and feed each one to `_process_test_file`. -/
def runBuilder (root : Dir) : BuilderState :=
  (walkFiles root).foldl builderStep initState


/-- The spec's invariant on a TestGroupName: "must be a valid identifier
fragment (letters, digits, underscore only)". -/
def isIdentFrag (s : String) : Bool := s.toList.all isWordChar

/-- `VERSION = "0.7.0"`. -/
def VERSION : String := "0.7.0"

/-- The `--report-to` option (short form `-v`); `_get_print_method` accepts
exactly these three values. -/
inductive PrintMode where
  | stdout : PrintMode
  | stderr : PrintMode
  | silent : PrintMode
deriving DecidableEq, Repr

/-- The errors a run can raise.  The script raises `RuntimeError('No tests
found …')` for an empty scan, and file I/O on a configured `--clay-path` raises
`IOError` when a support file cannot be read; the two are distinguished here. -/
inductive BuildError where
  | noTestsFound : BuildError
  | resourceUnavailable : BuildError
deriving DecidableEq, Repr

/-- The configuration read once at start: the optional external support-library
directory (`--clay-path`), modelled as a partial map from file name to the
contents readable there, and the print-sink mode. -/
structure Config where
  clayPath : Option (String → Option String)
  printMode : PrintMode

/-- `ClayTestBuilder._get_print_method`. -/
def getPrintMethod : PrintMode → String
  | .stdout => "printf(__VA_ARGS__)"
  | .stderr => "fprintf(stderr, __VA_ARGS__)"
  | .silent => ""

/-- The bundled `CLAY_FILES` table.  In the script these are zlib-compressed,
base64-encoded blobs decoded at load time; the decompression is a bulk-data
transport detail external to the core, so the decoded contents are abstracted
as opaque placeholder texts — only which keys exist matters to any claim. -/
def CLAY_FILES (filename : String) : Option String :=
  if filename = "clay.c" ∨ filename = "clay_sandbox.c" ∨ filename = "clay.h" then
    some ("<bundled " ++ filename ++ ">")
  else none

/-- `ClayTestBuilder._load_file`: with a configured `clay_path`, read the file
from that directory (an unreadable file raises); otherwise decode the bundled
blob. -/
def loadFile (cfg : Config) (filename : String) : Except BuildError String :=
  match cfg.clayPath with
  | some dir =>
    match dir filename with
    | some contents => .ok contents
    | none => .error .resourceUnavailable
  | none =>
    match CLAY_FILES filename with
    | some contents => .ok contents
    | none => .error .resourceUnavailable

/-- `self.modules = ["clay.c", "clay_sandbox.c"]`. -/
def modules : List String := ["clay.c", "clay_sandbox.c"]

/-- `ClayTestBuilder._get_library`: load every module (`modules` has exactly
`clay.c` and `clay_sandbox.c`) and join the texts with newlines; the first
unreadable module aborts the whole computation with its error. -/
def getLibrary (cfg : Config) : Except BuildError String :=
  match loadFile cfg "clay.c", loadFile cfg "clay_sandbox.c" with
  | .ok a, .ok b => .ok (pyJoin "\n" [a, b])
  | .error e, _ => .error e
  | _, .error e => .error e

/-- The C initializer `'\x7b"%s", &%s, %d\x7d' % (short_name, symbol, len(self.suites))`. -/
def renderCallback (cb : Callback) : String :=
  "\x7b\"" ++ cb.shortName ++ "\", &" ++ cb.symbol ++ ", " ++ toString cb.suiteIdx ++ "\x7d"

/-- A hook slot: the absent sentinel `"\x7bNULL, NULL, 0\x7d"` or the hook's
`func_ptr` initializer. -/
def renderHook : Option Callback → String
  | none => "\x7bNULL, NULL, 0\x7d"
  | some cb => renderCallback cb

/-- `TEMPLATE_SUITE.substitute(...).strip()`. -/
def renderSuiteEntry (s : SuiteEntry) : String :=
  "\x7b\n        \"" ++ s.clean_name ++ "\",\n        "
    ++ renderHook s.initHook ++ ",\n        "
    ++ renderHook s.cleanupHook ++ ",\n        &_all_callbacks["
    ++ toString s.cb_ptr ++ "], " ++ toString s.cb_count ++ "\n    \x7d"

/-- `TEMPLATE_MAIN.substitute(...)`: the fixed driver template with the nine
values spliced in. -/
def renderMain (version clay_print clay_library extern_declarations suites_str
    test_callbacks cb_count test_suites suite_count : String) : String :=
  "\n/*\n * Clay v" ++ version
    ++ "\n *\n * This is an autogenerated file. Do not modify.\n"
    ++ " * To add new unit tests or suites, regenerate the whole\n"
    ++ " * file with `./clay`\n */\n\n#define clay_print(...) " ++ clay_print
    ++ "\n\n" ++ clay_library
    ++ "\n\n" ++ extern_declarations
    ++ "\n\nstatic const struct clay_func _all_callbacks[] = \x7b\n    "
    ++ test_callbacks
    ++ "\n\x7d;\n\nstatic const struct clay_suite _all_suites[] = \x7b\n    "
    ++ test_suites
    ++ "\n\x7d;\n\nstatic const char _suites_str[] = \"" ++ suites_str
    ++ "\";\n\nint main(int argc, char *argv[])\n\x7b\n    return clay_test(\n"
    ++ "        argc, argv, _suites_str,\n        _all_callbacks, " ++ cb_count
    ++ ",\n        _all_suites, " ++ suite_count ++ "\n    );\n\x7d\n"

/-- The selector string: `suites_str = ", ".join(self.suite_list)`. -/
def suitesStr (st : BuilderState) : String :=
  pyJoin ", " st.suite_list

/-- `ClayTestBuilder.render()`, as the list of files written (name, contents)
in write order, together with the error aborting the run, if any.  The main
template — including the support library loaded by `_get_library` — is fully
computed before the driver file is written; the header contents are loaded
only afterwards, when the header file is written. -/
def render (st : BuilderState) (cfg : Config) :
    List (String × String) × Option BuildError :=
  match getLibrary cfg with
  | .error e => ([], some e)
  | .ok lib =>
    let template := renderMain VERSION (getPrintMethod cfg.printMode) lib
      (pyJoin "\n" st.declarations)
      (suitesStr st)
      (pyJoin ",\n\t" (st.callbacks.map renderCallback))
      (toString st.callbacks.length)
      (pyJoin ",\n\t" (st.suites.map renderSuiteEntry))
      (toString st.suites.length)
    match loadFile cfg "clay.h" with
    | .error e => ([("clay_main.c", template)], some e)
    | .ok hdr => ([("clay_main.c", template), ("clay.h", hdr)], none)

/-- One full run on one scan root: `ClayTestBuilder(folder); builder.render()`.
The constructor raises `NoTestsFound` before anything is rendered or written
when the walk produced no suites. -/
def runClay (root : Dir) (cfg : Config) :
    List (String × String) × Option BuildError :=
  let st := runBuilder root
  if st.suites.isEmpty then ([], some .noTestsFound) else render st cfg

/-- Every character of a list satisfies `isSpace`. -/
def allSpace (l : List Char) : Prop := ∀ c ∈ l, isSpace c = true

/-- Every character of a list satisfies `isWordChar`. -/
def allWord (l : List Char) : Prop := ∀ c ∈ l, isWordChar c = true

/-- Position `q` of `s` begins a line: it is position 0 and the scan state says
so, or the previous character is a newline. -/
def lineStartAt (atLS : Bool) (s : List Char) : Nat → Prop
  | 0 => atLS = true
  | q+1 => (s.drop q).head? = some '\n'

/-- The pattern matches at a line-beginning position `q` of `s`. -/
def predAt (G : List Char) (atLS : Bool) (s : List Char) (q : Nat) : Prop :=
  lineStartAt atLS s q ∧ matchAt G (s.drop q) ≠ none

/-- The loop routes a match to the `initialize` hook slot iff its short name is
exactly `"initialize"`. -/
def isInitName (m : RegexMatch) : Bool := m.shortName == "initialize"

/-- The loop routes a match to the `cleanup` hook slot iff its short name is
exactly `"cleanup"` (the `elif` is reachable because the two reserved names
differ). -/
def isCleanupName (m : RegexMatch) : Bool := m.shortName == "cleanup"

/-- A match that is neither hook becomes an ordinary callback. -/
def isOrdinary (m : RegexMatch) : Bool := !(isInitName m) && !(isCleanupName m)

/-- A walked file produces a suite iff it passes the `*.c` filter and its
matches contain at least one ordinary callback — mirroring the early return
`if not callbacks: return` of `_process_test_file`. -/
def producesSuite (t : List String × String × String) : Bool :=
  matchesDotC t.2.1
    && !((findMatches (testName t.1 t.2.1) t.2.2).filter isOrdinary).isEmpty

/-- The `func_ptr` entry built for a match while `len(self.suites) = k`. -/
def hookFor (k : Nat) (m : RegexMatch) : Callback := ⟨m.shortName, m.symbol, k⟩

/-- `"extern %s;" % declaration`. -/
def externOf (m : RegexMatch) : String := "extern " ++ m.declaration ++ ";"

/-- Window bookkeeping: scanning the suite list left to right, each suite's
offset equals the running callback count, and the final running count equals
the flat table's length. -/
def windowsOk : Nat → List SuiteEntry → Nat → Bool
  | acc, [], total => acc == total
  | acc, e :: rest, total => (e.cb_ptr == acc) && windowsOk (acc + e.cb_count) rest total

/-- Scenario B's scan root: `c.c` (one ordinary test plus an `initialize` hook)
at the root, and `a/b.c` (two ordinary tests) in subdirectory `a`. -/
def scenarioB : Dir := .mk
  [("c.c", "void test_c__one(void)\n\x7b\n\x7d\nvoid test_c__initialize(void)\n\x7b\n\x7d\n")]
  (.dcons "a" (.mk
    [("b.c", "void test_a_b__t1(void)\n\x7b\n\x7d\nvoid test_a_b__t2(void)\n\x7b\n\x7d\n")]
    .dnil) .dnil)

/-- A configuration using the bundled support library. -/
def cfgBundled : Config := ⟨none, .stdout⟩

/-- An external support directory where everything except `clay.h` is readable. -/
def cfgHeaderMissing : Config :=
  ⟨some (fun n => if n = "clay.h" then none else some "LIB"), .stdout⟩

/-- An external support directory where nothing is readable. -/
def cfgAllMissing : Config := ⟨some (fun _ => none), .stdout⟩

/-- A scan root whose single file name contains a hyphen. -/
def rootHyphen : Dir := .mk [("a-b.c", "")] .dnil

/-- A scan root with no files at all. -/
def rootEmpty : Dir := .mk [] .dnil

/-- A scan root whose single file name contains an inner dot, so the derived
group name `a.b` carries a regex metacharacter. -/
def rootDot : Dir := .mk [("a.b.c", "")] .dnil

/-- A text whose declaration is named `test_axb__foo`: the spliced group name
`a.b` matches it because `.` is a regex wildcard. -/
def textDotG : String := "void test_axb__foo(void) \x7b"

/-- The single-file text of end-to-end scenario A. -/
def textMath : String := "void test_math__add(void)\n\x7b\n\x7d\n"

/-- A group text with a duplicated `initialize` hook, a `cleanup` hook and one
ordinary test. -/
def textDupHooks : String :=
  "void test_g__initialize(void) \x7b\nvoid test_g__a(void) \x7b\nvoid test_g__initialize( void ) \x7b\nvoid test_g__cleanup(void) \x7b\n"

/-- A group text containing only lifecycle-named functions. -/
def textHooksOnly : String :=
  "void test_h__initialize(void) \x7b\nvoid test_h__cleanup(void) \x7b\n"

/-! ### Lemmas and claim theorems -/

theorem dropLit_eq_some {l s r : List Char} (h : dropLit l s = some r) : s = l ++ r := by
  induction l generalizing s with
  | nil => simpa [dropLit] using h
  | cons c cs ih =>
    cases s with
    | nil => simp [dropLit] at h
    | cons x xs =>
      by_cases hx : x = c
      · subst hx
        simp only [dropLit, if_pos rfl] at h
        simpa using ih h
      · simp [dropLit, hx] at h

theorem dropLit_append (l r : List Char) : dropLit l (l ++ r) = some r := by
  induction l with
  | nil => rfl
  | cons c cs ih => simp [dropLit, ih]

theorem dropLit_cons_ne {c : Char} {cs : List Char} {x : Char} {xs : List Char}
    (h : x ≠ c) : dropLit (c :: cs) (x :: xs) = none := by
  simp [dropLit, h]

theorem dropLit_nil_right {c : Char} {cs : List Char} : dropLit (c :: cs) [] = none := rfl

theorem takeWhile_all {p : Char → Bool} {l : List Char} {c : Char}
    (h : c ∈ l.takeWhile p) : p c = true :=
  List.mem_takeWhile_imp h

theorem takeWhile_append_stop {p : Char → Bool} {w : List Char} (y : List Char)
    (x : Char) (hw : ∀ c ∈ w, p c = true) (hx : p x = false) :
    (w ++ x :: y).takeWhile p = w ∧ (w ++ x :: y).dropWhile p = x :: y := by
  induction w with
  | nil => simp [List.takeWhile, List.dropWhile, hx]
  | cons a w' ih =>
    have ha : p a = true := hw a (by simp)
    have ih' := ih (fun c hc => hw c (by simp [hc]))
    simp [List.takeWhile, List.dropWhile, ha, ih'.1, ih'.2]

theorem matchG_split {G s t r : List Char} (h : matchG G s = some (t, r)) : s = t ++ r := by
  induction G generalizing s t with
  | nil =>
    simp [matchG] at h
    simp [h.1, h.2]
  | cons g gs ih =>
    cases s with
    | nil => simp [matchG] at h
    | cons x xs =>
      by_cases hgd : g = '.'
      · simp only [matchG, hgd, if_pos] at h
        by_cases hx : x = '\n'
        · simp [hx] at h
        · simp [hx] at h
          obtain ⟨a, ha, hat⟩ := h
          subst hat
          simpa using ih ha
      · simp [matchG, hgd] at h
        obtain ⟨hxg, a, ha, hat⟩ := h
        subst hat
        simpa using ih ha

theorem matchG_word {G s t r : List Char} (hG : allWord G)
    (h : matchG G s = some (t, r)) : t = G := by
  induction G generalizing s t with
  | nil => simp [matchG] at h; simp [h.1]
  | cons g gs ih =>
    cases s with
    | nil => simp [matchG] at h
    | cons x xs =>
      have hgw : isWordChar g = true := hG g (by simp)
      have hgd : g ≠ '.' := by
        intro he; rw [he] at hgw
        simp [isWordChar, Char.isAlpha, Char.isUpper, Char.isLower, Char.isDigit] at hgw
      simp [matchG, hgd] at h
      obtain ⟨hxg, a, ha, hat⟩ := h
      subst hat
      have := ih (fun c hc => hG c (by simp [hc])) ha
      simp [this, hxg]

theorem matchG_no_newline {G s t r : List Char} (hG : '\n' ∉ G)
    (h : matchG G s = some (t, r)) : '\n' ∉ t := by
  induction G generalizing s t with
  | nil => simp [matchG] at h; simp [h.1]
  | cons g gs ih =>
    cases s with
    | nil => simp [matchG] at h
    | cons x xs =>
      have htail : '\n' ∉ gs := fun hc => hG (List.mem_cons_of_mem g hc)
      by_cases hgd : g = '.'
      · simp only [matchG, hgd, if_pos] at h
        by_cases hx : x = '\n'
        · simp [hx] at h
        · simp [hx] at h
          obtain ⟨a, ha, hat⟩ := h
          subst hat
          have := ih htail ha
          simp only [List.mem_cons, not_or]
          exact ⟨fun he => hx he.symm, this⟩
      · simp [matchG, hgd] at h
        obtain ⟨hxg, a, ha, hat⟩ := h
        subst hat
        have := ih htail ha
        have hgn : g ≠ '\n' := fun he => hG (he ▸ List.mem_cons_self g gs)
        have hx : x ≠ '\n' := by rw [hxg]; exact hgn
        simp only [List.mem_cons, not_or]
        exact ⟨fun he => hx he.symm, this⟩

theorem isEmpty_false_ne_nil {l : List Char} (h : ¬ l.isEmpty = true) : l ≠ [] := by
  cases l <;> simp_all

/-- Inversion of a successful `matchAt` over a word-character group name: the
input decomposes into the pattern's segments. -/
theorem matchAt_inv {G s : List Char} {m : RegexMatch} {n : Nat}
    (hG : allWord G) (h : matchAt G s = some (m, n)) :
    ∃ ws1 short ws2 ptxt ws4 rest,
      s = "void".toList ++ ws1 ++ "test_".toList ++ G ++ "__".toList ++ short
          ++ ['('] ++ ws2 ++ ptxt ++ [')'] ++ ws4 ++ '\x7b' :: rest ∧
      ws1 ≠ [] ∧ allSpace ws1 ∧
      short ≠ [] ∧ allWord short ∧
      allSpace ws2 ∧ allSpace ws4 ∧
      (ptxt = [] ∨ ∃ ws3, allSpace ws3 ∧ ptxt = "void".toList ++ ws3) ∧
      m = ⟨String.mk ("void".toList ++ ws1 ++ "test_".toList ++ G ++ "__".toList
             ++ short ++ ['('] ++ ws2 ++ ptxt ++ [')']),
           String.mk ("test_".toList ++ G ++ "__".toList ++ short),
           String.mk short⟩ ∧
      n = s.length - rest.length := by
  unfold matchAt at h
  split at h
  · exact absurd h (by simp)
  case _ r1 heq1 =>
  dsimp only at h
  split at h
  · exact absurd h (by simp)
  case _ heqw =>
  split at h
  · exact absurd h (by simp)
  case _ r3 heq2 =>
  split at h
  · exact absurd h (by simp)
  case _ gtxt r4 heq3 =>
  split at h
  · exact absurd h (by simp)
  case _ r5 heq4 =>
  split at h
  · exact absurd h (by simp)
  case _ heqs =>
  split at h
  · exact absurd h (by simp)
  case _ r7 heq5 =>
  have hgw : gtxt = G := matchG_word hG heq3
  subst hgw
  cases hv : dropLit "void".toList (List.dropWhile isSpace r7) with
  | some rv =>
    rw [hv] at h
    dsimp only at h
    cases hp : dropLit [')'] (List.dropWhile isSpace rv) with
    | none =>
      rw [hp] at h
      have hv' := dropLit_eq_some hv
      rw [hv'] at h
      have hz : dropLit [')'] ("void".toList ++ rv) = none := dropLit_cons_ne (by decide)
      rw [hz] at h
      exact absurd h (by simp)
    | some r9 =>
      rw [hp] at h
      dsimp only at h
      cases hb : dropLit ['\x7b'] (List.dropWhile isSpace r9) with
      | none => rw [hb] at h; exact absurd h (by simp)
      | some r11 =>
        rw [hb] at h
        rw [Option.some.injEq, Prod.mk.injEq] at h
        obtain ⟨hm, hn⟩ := h
        refine ⟨List.takeWhile isSpace r1, List.takeWhile isWordChar r5,
          List.takeWhile isSpace r7, "void".toList ++ List.takeWhile isSpace rv,
          List.takeWhile isSpace r9, r11, ?_, isEmpty_false_ne_nil heqw,
          fun c hc => takeWhile_all hc, isEmpty_false_ne_nil heqs,
          fun c hc => takeWhile_all hc, fun c hc => takeWhile_all hc,
          fun c hc => takeWhile_all hc,
          Or.inr ⟨List.takeWhile isSpace rv, fun c hc => takeWhile_all hc, rfl⟩,
          hm.symm, hn.symm⟩
        have e1 := dropLit_eq_some heq1
        have e2 := (List.takeWhile_append_dropWhile isSpace r1).symm
        have e3 := dropLit_eq_some heq2
        have e4 := matchG_split heq3
        have e5 := dropLit_eq_some heq4
        have e6 := (List.takeWhile_append_dropWhile isWordChar r5).symm
        have e7 := dropLit_eq_some heq5
        have e8 := (List.takeWhile_append_dropWhile isSpace r7).symm
        have e9 := dropLit_eq_some hv
        have e10 := (List.takeWhile_append_dropWhile isSpace rv).symm
        have e11 := dropLit_eq_some hp
        have e12 := (List.takeWhile_append_dropWhile isSpace r9).symm
        have e13 := dropLit_eq_some hb
        rw [e1]
        conv_lhs => rw [e2, e3, e4, e5]
        conv_lhs => rw [e6, e7, e8, e9]
        conv_lhs => rw [e10, e11, e12, e13]
        simp [List.append_assoc]
  | none =>
    rw [hv] at h
    dsimp only at h
    cases hp : dropLit [')'] (List.dropWhile isSpace r7) with
    | none => rw [hp] at h; exact absurd h (by simp)
    | some r9 =>
      rw [hp] at h
      dsimp only at h
      cases hb : dropLit ['\x7b'] (List.dropWhile isSpace r9) with
      | none => rw [hb] at h; exact absurd h (by simp)
      | some r11 =>
        rw [hb] at h
        rw [Option.some.injEq, Prod.mk.injEq] at h
        obtain ⟨hm, hn⟩ := h
        refine ⟨List.takeWhile isSpace r1, List.takeWhile isWordChar r5,
          List.takeWhile isSpace r7, [],
          List.takeWhile isSpace r9, r11, ?_, isEmpty_false_ne_nil heqw,
          fun c hc => takeWhile_all hc, isEmpty_false_ne_nil heqs,
          fun c hc => takeWhile_all hc, fun c hc => takeWhile_all hc,
          fun c hc => takeWhile_all hc, Or.inl rfl,
          hm.symm, hn.symm⟩
        have e1 := dropLit_eq_some heq1
        have e2 := (List.takeWhile_append_dropWhile isSpace r1).symm
        have e3 := dropLit_eq_some heq2
        have e4 := matchG_split heq3
        have e5 := dropLit_eq_some heq4
        have e6 := (List.takeWhile_append_dropWhile isWordChar r5).symm
        have e7 := dropLit_eq_some heq5
        have e8 := (List.takeWhile_append_dropWhile isSpace r7).symm
        have e9 := dropLit_eq_some hp
        have e12 := (List.takeWhile_append_dropWhile isSpace r9).symm
        have e13 := dropLit_eq_some hb
        rw [e1]
        conv_lhs => rw [e2, e3, e4, e5]
        conv_lhs => rw [e6, e7, e8, e9]
        conv_lhs => rw [e12, e13]
        simp [List.append_assoc]

theorem isSpace_ne_v {c : Char} (h : isSpace c = true) : c ≠ 'v' := by
  intro he; rw [he] at h; exact absurd h (by decide)

theorem matchAt_nil (G : List Char) : matchAt G [] = none := rfl

theorem matchAt_cons_ne_v {G : List Char} {x : Char} {xs : List Char} (h : x ≠ 'v') :
    matchAt G (x :: xs) = none := by
  unfold matchAt
  rw [show dropLit "void".toList (x :: xs) = none from dropLit_cons_ne h]

theorem matchAt_space_head {G d y : List Char} (hd : d ≠ []) (hs : allSpace d) :
    matchAt G (d ++ y) = none := by
  cases d with
  | nil => exact absurd rfl hd
  | cons c d' => exact matchAt_cons_ne_v (isSpace_ne_v (hs c (by simp)))

theorem matchAt_param_void {G w z : List Char} (hw : allSpace w) :
    matchAt G ("void".toList ++ (w ++ ')' :: z)) = none := by
  unfold matchAt
  rw [dropLit_append]
  dsimp only
  have hsplit := takeWhile_append_stop z ')' hw (by decide)
  rw [hsplit.1, hsplit.2]
  by_cases hwE : w.isEmpty = true
  · rw [if_pos hwE]
  · rw [if_neg hwE]
    rw [show dropLit "test_".toList (')' :: z) = none from dropLit_cons_ne (by decide)]

theorem mem_of_getLast {l : List Char} {c : Char} (h : l.getLast? = some c) : c ∈ l := by
  induction l with
  | nil => simp at h
  | cons x xs ih =>
    cases xs with
    | nil => simp_all [List.getLast?]
    | cons y ys =>
      rw [List.getLast?_cons_cons] at h
      exact List.mem_cons_of_mem _ (ih h)

theorem getLast?_append_ne {X t : List Char} (ht : t ≠ []) :
    (X ++ t).getLast? = t.getLast? :=
  List.getLast?_append_of_ne_nil X ht

/-- Step over a newline-free segment of a decomposed match: a line-beginning
split point cannot fall inside it. -/
theorem chunk_step_noNL {a b Y : List Char} (X : List Char) (h : a ++ b = X ++ Y)
    (hlast : a.getLast? = some '\n') (hX : '\n' ∉ X) :
    ∃ a', a = X ++ a' ∧ a' ++ b = Y ∧ a' ≠ [] ∧ a'.getLast? = some '\n' := by
  rcases List.append_eq_append_iff.mp h with ⟨t, hXt, hbt⟩ | ⟨t, hat, hYt⟩
  · exact absurd (hXt ▸ List.mem_append_left _ (mem_of_getLast hlast)) hX
  · cases t with
    | nil =>
      rw [List.append_nil] at hat
      exact absurd (hat ▸ mem_of_getLast hlast) hX
    | cons u us =>
      refine ⟨u :: us, hat, hYt.symm, by simp, ?_⟩
      rw [hat] at hlast
      rwa [getLast?_append_ne (by simp)] at hlast

/-- Step over a whitespace segment of a decomposed match: the split point either
lands inside it (so the remainder starts with a — possibly empty — whitespace
run) or lies beyond it. -/
theorem chunk_step_ws {a b W Y : List Char} (h : a ++ b = W ++ Y)
    (hlast : a.getLast? = some '\n') (hW : allSpace W) :
    (∃ d, allSpace d ∧ b = d ++ Y) ∨
    (∃ a', a = W ++ a' ∧ a' ++ b = Y ∧ a' ≠ [] ∧ a'.getLast? = some '\n') := by
  rcases List.append_eq_append_iff.mp h with ⟨t, hWt, hbt⟩ | ⟨t, hat, hYt⟩
  · exact Or.inl ⟨t, fun c hc => hW c (hWt ▸ List.mem_append_right _ hc), hbt⟩
  · cases t with
    | nil => exact Or.inl ⟨[], by simp [allSpace], by simpa using hYt.symm⟩
    | cons u us =>
      refine Or.inr ⟨u :: us, hat, hYt.symm, by simp, ?_⟩
      rw [hat] at hlast
      rwa [getLast?_append_ne (by simp)] at hlast

/-- Tail of the no-inner-match argument: a line-beginning split point at or
beyond the whitespace before the opening brace cannot start a match. -/
theorem matchAt_noInner_tail {G b ws4 rest aX : List Char}
    (hd : aX ++ b = ws4 ++ ('\x7b' :: rest)) (hlast : aX.getLast? = some '\n')
    (hws4 : allSpace ws4) (hb : rest.length < b.length) :
    matchAt G b = none := by
  rcases chunk_step_ws hd hlast hws4 with ⟨d, hdsp, hbd⟩ | ⟨a9, -, hd9, ha9ne, -⟩
  · cases d with
    | nil =>
      rw [hbd, List.nil_append]
      exact matchAt_cons_ne_v (by decide)
    | cons c d' =>
      rw [hbd]
      exact matchAt_space_head (by simp) hdsp
  · exfalso
    have hlen := congrArg List.length hd9
    simp only [List.length_append, List.length_cons] at hlen
    have : 0 < a9.length := List.length_pos.mpr ha9ne
    omega

/-- No position strictly inside a successful match that begins a line can start
another match: the characters inside the matched span that follow a newline are
either whitespace (and the pattern starts with `void`), the `test_` name part,
the parameter `void` (after which `test_` cannot follow), a closing parenthesis
or the opening brace. -/
theorem matchAt_noInner {G s : List Char} {m : RegexMatch} {n : Nat}
    (hG : allWord G) (h : matchAt G s = some (m, n))
    {a b : List Char} (hs : s = a ++ b)
    (hlast : a.getLast? = some '\n') (hb : s.length - n < b.length) :
    matchAt G b = none := by
  obtain ⟨ws1, short, ws2, ptxt, ws4, rest, hdecomp, hws1ne, hws1, hshortne, hshort,
    hws2, hws4, hptxt, hm, hn⟩ := matchAt_inv hG h
  have hG' : '\n' ∉ G := fun hc => absurd (hG '\n' hc) (by decide)
  have hshort' : '\n' ∉ short := fun hc => absurd (hshort '\n' hc) (by decide)
  have hrest : s.length - n = rest.length := by
    have : rest.length ≤ s.length := by
      rw [hdecomp]; simp [List.length_append]; omega
    omega
  rw [hrest] at hb
  have hd0 : a ++ b = "void".toList ++ (ws1 ++ (("test_".toList ++ G ++ "__".toList
      ++ short ++ ['(']) ++ (ws2 ++ (ptxt ++ ([')'] ++ (ws4 ++ ('\x7b' :: rest))))))) := by
    rw [← hs, hdecomp]; simp [List.append_assoc]
  obtain ⟨a1, -, hd1, ha1ne, ha1last⟩ := chunk_step_noNL _ hd0 hlast (by decide)
  rcases chunk_step_ws hd1 ha1last hws1 with ⟨d, hdsp, hbd⟩ | ⟨a2, -, hd2, ha2ne, ha2last⟩
  · cases d with
    | nil =>
      rw [hbd]
      exact matchAt_cons_ne_v (by decide)
    | cons c d' =>
      rw [hbd]
      exact matchAt_space_head (by simp) hdsp
  · have hmidNL : '\n' ∉ ("test_".toList ++ G ++ "__".toList ++ short ++ ['(']) := by
      simp only [List.mem_append, List.mem_singleton, not_or]
      exact ⟨⟨⟨⟨by decide, hG'⟩, by decide⟩, hshort'⟩, by decide⟩
    obtain ⟨a3, -, hd3, ha3ne, ha3last⟩ := chunk_step_noNL _ hd2 ha2last hmidNL
    rcases chunk_step_ws hd3 ha3last hws2 with ⟨d, hdsp, hbd⟩ | ⟨a4, -, hd4, ha4ne, ha4last⟩
    · cases d with
      | nil =>
        rw [hbd, List.nil_append]
        rcases hptxt with hpe | ⟨ws3, hws3, hpv⟩
        · rw [hpe, List.nil_append]
          exact matchAt_cons_ne_v (by decide)
        · rw [hpv, List.append_assoc]
          exact matchAt_param_void hws3
      | cons c d' =>
        rw [hbd]
        exact matchAt_space_head (by simp) hdsp
    · rcases hptxt with hpe | ⟨ws3, hws3, hpv⟩
      · rw [hpe, List.nil_append] at hd4
        obtain ⟨a5, -, hd5, ha5ne, ha5last⟩ :=
          chunk_step_noNL [')'] hd4 ha4last (by decide)
        exact matchAt_noInner_tail hd5 ha5last hws4 hb
      · rw [hpv, List.append_assoc] at hd4
        obtain ⟨a5, -, hd5, ha5ne, ha5last⟩ := chunk_step_noNL _ hd4 ha4last (by decide)
        rcases chunk_step_ws hd5 ha5last hws3 with ⟨d, hdsp, hbd⟩ | ⟨a6, -, hd6, ha6ne, ha6last⟩
        · cases d with
          | nil =>
            rw [hbd, List.nil_append]
            exact matchAt_cons_ne_v (by decide)
          | cons c d' =>
            rw [hbd]
            exact matchAt_space_head (by simp) hdsp
        · obtain ⟨a7, -, hd7, ha7ne, ha7last⟩ :=
            chunk_step_noNL [')'] hd6 ha6last (by decide)
          exact matchAt_noInner_tail hd7 ha7last hws4 hb

theorem matchAt_bounds {G s : List Char} {m : RegexMatch} {n : Nat}
    (hG : allWord G) (h : matchAt G s = some (m, n)) : 1 ≤ n ∧ n ≤ s.length := by
  obtain ⟨ws1, short, ws2, ptxt, ws4, rest, hdecomp, -, -, -, -, -, -, -, -, hn⟩ :=
    matchAt_inv hG h
  have : s.length = rest.length + (ws1.length + G.length + short.length + ws2.length
      + ptxt.length + ws4.length + 14) := by
    rw [hdecomp]; simp [List.length_append]; omega
  omega

theorem predAt_cons {G : List Char} {c : Char} {rest : List Char} (atLS : Bool) {q : Nat} :
    predAt G (c == '\n') rest q ↔ predAt G atLS (c :: rest) (q+1) := by
  unfold predAt
  cases q with
  | zero =>
    show ((c == '\n') = true ∧ _) ↔ (((c :: rest).drop 0).head? = some '\n' ∧ _)
    simp [beq_iff_eq]
  | succ q' =>
    show ((rest.drop q').head? = some '\n' ∧ _) ↔ (((c :: rest).drop (q'+1)).head? = some '\n' ∧ _)
    simp only [List.drop_succ_cons]

theorem getLast?_take_succ {l : List Char} {q : Nat} (h : q < l.length) :
    (l.take (q+1)).getLast? = (l.drop q).head? := by
  induction l generalizing q with
  | nil => simp at h
  | cons c rest ih =>
    cases q with
    | zero => simp
    | succ q' =>
      have hq : q' < rest.length := by simpa using h
      rw [List.take_succ_cons, List.drop_succ_cons, ← ih hq]
      have hne : rest.take (q'+1) ≠ [] := by
        intro he
        rcases List.take_eq_nil_iff.mp he with h1 | h2
        · omega
        · rw [h2] at hq; simp at hq
      cases hx : rest.take (q'+1) with
      | nil => exact absurd hx hne
      | cons y ys => rw [List.getLast?_cons_cons]

/-- With no line-beginning match among the next `k` skipped positions, the
skipping scanner agrees with the position-by-position one. -/
theorem scanCore_eq_scanSpec_aux {G : List Char} (hG : allWord G) :
    ∀ (s : List Char) (atLS : Bool) (k : Nat),
      (∀ q < k, ¬ predAt G atLS s q) →
      scanCore G s atLS k = scanSpec G s atLS := by
  intro s
  induction s with
  | nil => intro atLS k _; rfl
  | cons c rest ih =>
    intro atLS k hk
    have hshift : ∀ j, (∀ q < j + 1, ¬ predAt G atLS (c :: rest) q) →
        ∀ q < j, ¬ predAt G (c == '\n') rest q := by
      intro j hj q hq hp
      exact hj (q+1) (by omega) ((predAt_cons _).mp hp)
    cases k with
    | succ j =>
      have h0 := hk 0 (by omega)
      have hstep : scanCore G (c :: rest) atLS (j+1) = scanCore G rest (c == '\n') j := rfl
      have hspec : scanSpec G (c :: rest) atLS = scanSpec G rest (c == '\n') := by
        cases hA : atLS with
        | false => rfl
        | true =>
          have hM : matchAt G (c :: rest) = none := by
            by_contra hne
            exact h0 ⟨hA, by simpa using hne⟩
          show scanSpec G (c :: rest) true = _
          simp only [scanSpec, hM]
      rw [hstep, hspec]
      exact ih (c == '\n') j (hshift j (by simpa using hk))
    | zero =>
      cases hA : atLS with
      | false =>
        show scanCore G (c :: rest) false 0 = scanSpec G (c :: rest) false
        have e1 : scanCore G (c :: rest) false 0 = scanCore G rest (c == '\n') 0 := by
          simp [scanCore]
        have e2 : scanSpec G (c :: rest) false = scanSpec G rest (c == '\n') := by
          simp [scanSpec]
        rw [e1, e2]
        exact ih (c == '\n') 0 (by omega)
      | true =>
        show scanCore G (c :: rest) true 0 = scanSpec G (c :: rest) true
        cases hM : matchAt G (c :: rest) with
        | none =>
          have e1 : scanCore G (c :: rest) true 0 = scanCore G rest (c == '\n') 0 := by
            simp [scanCore, hM]
          have e2 : scanSpec G (c :: rest) true = scanSpec G rest (c == '\n') := by
            simp [scanSpec, hM]
          rw [e1, e2]
          exact ih (c == '\n') 0 (by omega)
        | some p =>
          obtain ⟨m, n⟩ := p
          have hbounds := matchAt_bounds hG hM
          have e1 : scanCore G (c :: rest) true 0 = m :: scanCore G rest (c == '\n') (n - 1) := by
            simp [scanCore, hM]
          have e2 : scanSpec G (c :: rest) true = m :: scanSpec G rest (c == '\n') := by
            simp [scanSpec, hM]
          rw [e1, e2]
          congr 1
          apply ih (c == '\n') (n - 1)
          intro q hq hp
          obtain ⟨hls, hne⟩ := (predAt_cons true).mp hp
          by_cases hqlen : q + 1 ≤ rest.length
          · have hlast : ((c :: rest).take (q+1)).getLast? = some '\n' := by
              rw [getLast?_take_succ (by simp only [List.length_cons]; omega)]
              exact hls
            have hnone := matchAt_noInner hG hM
              ((c :: rest).take_append_drop (q+1)).symm
              hlast
              (by have hlen : ((c :: rest).drop (q+1)).length
                      = (c :: rest).length - (q+1) := List.length_drop ..
                  simp only [List.length_cons] at hbounds ⊢
                  rw [hlen]
                  simp only [List.length_cons]
                  omega)
            exact hne hnone
          · have hdq : (c :: rest).drop (q+1) = rest.drop q := List.drop_succ_cons ..
            have hnil : rest.drop q = [] := List.drop_eq_nil_of_le (by omega)
            rw [hdq, hnil] at hne
            exact hne (matchAt_nil G)

/-- The skipping scanner and the spec-side scanner agree for word-character
group names: no position skipped after a match could itself have matched. -/
theorem scanCore_eq_scanSpec {G : List Char} (hG : allWord G) (s : List Char) (atLS : Bool) :
    scanCore G s atLS 0 = scanSpec G s atLS :=
  scanCore_eq_scanSpec_aux hG s atLS 0 (by omega)

/-- Every match the scanner emits was produced by `matchAt` on some suffix. -/
theorem scanCore_mem {G : List Char} {m : RegexMatch} :
    ∀ {s : List Char} {atLS : Bool} {k : Nat}, m ∈ scanCore G s atLS k →
    ∃ s' n, matchAt G s' = some (m, n) := by
  intro s
  induction s with
  | nil => intro atLS k h; simp [scanCore] at h
  | cons c rest ih =>
    intro atLS k h
    cases k with
    | succ j => exact ih h
    | zero =>
      cases hA : atLS with
      | false =>
        rw [hA] at h
        have e1 : scanCore G (c :: rest) false 0 = scanCore G rest (c == '\n') 0 := by
          simp [scanCore]
        rw [e1] at h
        exact ih h
      | true =>
        rw [hA] at h
        cases hM : matchAt G (c :: rest) with
        | none =>
          have e1 : scanCore G (c :: rest) true 0 = scanCore G rest (c == '\n') 0 := by
            simp [scanCore, hM]
          rw [e1] at h
          exact ih h
        | some p =>
          obtain ⟨m', n⟩ := p
          have e1 : scanCore G (c :: rest) true 0 = m' :: scanCore G rest (c == '\n') (n - 1) := by
            simp [scanCore, hM]
          rw [e1] at h
          rcases List.mem_cons.mp h with he | hmem
          · exact ⟨c :: rest, n, he ▸ hM⟩
          · exact ih hmem

/-- Shape of the captures of any successful match: the symbol is the group
prefix applied to the short name, and the short name is a nonempty run of
word characters. -/
theorem matchAt_shape {G s : List Char} {m : RegexMatch} {n : Nat}
    (hG : allWord G) (h : matchAt G s = some (m, n)) :
    m.symbol = String.mk ("test_".toList ++ G ++ "__".toList ++ m.shortName.toList) ∧
    m.shortName ≠ "" ∧ m.shortName.toList.all isWordChar = true := by
  obtain ⟨ws1, short, ws2, ptxt, ws4, rest, -, -, -, hshortne, hshort, -, -, -, hm, -⟩ :=
    matchAt_inv hG h
  subst hm
  refine ⟨rfl, ?_, ?_⟩
  · intro he
    exact hshortne (congrArg String.toList he)
  · exact List.all_eq_true.mpr hshort

theorem getLast?_cons' {α : Type} (a : α) (l : List α) :
    (a :: l).getLast? = some (l.getLast?.getD a) := by
  induction l generalizing a with
  | nil => rfl
  | cons b l' ih => rw [List.getLast?_cons_cons, ih b]; simp

theorem fileStep_decls (k : Nat) (a : FileAcc) (m : RegexMatch) :
    (fileStep k a m).decls = a.decls ++ [externOf m] := by
  unfold fileStep; dsimp only
  split
  · rfl
  · split <;> rfl

theorem fileStep_cbs (k : Nat) (a : FileAcc) (m : RegexMatch) :
    (fileStep k a m).cbs = if isOrdinary m then a.cbs ++ [hookFor k m] else a.cbs := by
  unfold fileStep; dsimp only
  by_cases h1 : m.shortName = "initialize"
  · rw [if_pos h1]
    have : isOrdinary m = false := by simp [isOrdinary, isInitName, h1]
    rw [this]; rfl
  · rw [if_neg h1]
    by_cases h2 : m.shortName = "cleanup"
    · rw [if_pos h2]
      have : isOrdinary m = false := by simp [isOrdinary, isCleanupName, h2]
      rw [this]; rfl
    · rw [if_neg h2]
      have : isOrdinary m = true := by simp [isOrdinary, isInitName, isCleanupName, h1, h2]
      rw [this]; rfl

theorem fileStep_init (k : Nat) (a : FileAcc) (m : RegexMatch) :
    (fileStep k a m).initHook =
      if isInitName m then some (hookFor k m) else a.initHook := by
  unfold fileStep; dsimp only
  by_cases h1 : m.shortName = "initialize"
  · rw [if_pos h1]
    have : isInitName m = true := by simp [isInitName, h1]
    rw [if_pos this]; rfl
  · rw [if_neg h1]
    have : isInitName m = false := by simp [isInitName, h1]
    rw [this]
    by_cases h2 : m.shortName = "cleanup"
    · rw [if_pos h2]; rfl
    · rw [if_neg h2]; rfl

theorem fileStep_cleanup (k : Nat) (a : FileAcc) (m : RegexMatch) :
    (fileStep k a m).cleanupHook =
      if isCleanupName m then some (hookFor k m) else a.cleanupHook := by
  unfold fileStep; dsimp only
  by_cases h1 : m.shortName = "initialize"
  · rw [if_pos h1]
    have : isCleanupName m = false := by
      simp [isCleanupName, h1]
    rw [this]; rfl
  · rw [if_neg h1]
    by_cases h2 : m.shortName = "cleanup"
    · rw [if_pos h2]
      have : isCleanupName m = true := by simp [isCleanupName, h2]
      rw [if_pos this]; rfl
    · rw [if_neg h2]
      have : isCleanupName m = false := by simp [isCleanupName, h2]
      rw [this]; rfl

theorem foldl_fileStep_decls (k : Nat) (L : List RegexMatch) :
    ∀ a : FileAcc, (L.foldl (fileStep k) a).decls = a.decls ++ L.map externOf := by
  induction L with
  | nil => intro a; simp
  | cons m L' ih =>
    intro a
    rw [List.foldl_cons, ih, fileStep_decls]
    simp

theorem foldl_fileStep_cbs (k : Nat) (L : List RegexMatch) :
    ∀ a : FileAcc, (L.foldl (fileStep k) a).cbs
      = a.cbs ++ (L.filter isOrdinary).map (hookFor k) := by
  induction L with
  | nil => intro a; simp
  | cons m L' ih =>
    intro a
    rw [List.foldl_cons, ih, fileStep_cbs, List.filter_cons]
    by_cases hm : isOrdinary m = true
    · rw [if_pos hm, if_pos hm]; simp
    · rw [if_neg hm, if_neg hm]

theorem foldl_fileStep_init (k : Nat) (L : List RegexMatch) :
    ∀ a : FileAcc, (L.foldl (fileStep k) a).initHook
      = (((L.filter isInitName).getLast?).map (hookFor k)).or a.initHook := by
  induction L with
  | nil => intro a; simp
  | cons m L' ih =>
    intro a
    rw [List.foldl_cons, ih, fileStep_init, List.filter_cons]
    by_cases hm : isInitName m = true
    · rw [if_pos hm, if_pos hm]
      cases hL : L'.filter isInitName with
      | nil => simp
      | cons x xs => simp [getLast?_cons']
    · rw [if_neg hm, if_neg hm]

theorem foldl_fileStep_cleanup (k : Nat) (L : List RegexMatch) :
    ∀ a : FileAcc, (L.foldl (fileStep k) a).cleanupHook
      = (((L.filter isCleanupName).getLast?).map (hookFor k)).or a.cleanupHook := by
  induction L with
  | nil => intro a; simp
  | cons m L' ih =>
    intro a
    rw [List.foldl_cons, ih, fileStep_cleanup, List.filter_cons]
    by_cases hm : isCleanupName m = true
    · rw [if_pos hm, if_pos hm]
      cases hL : L'.filter isCleanupName with
      | nil => simp
      | cons x xs => simp [getLast?_cons']
    · rw [if_neg hm, if_neg hm]

/-- Closed form of `_process_test_file`: declarations always grow by one extern
per match; a suite is appended exactly when some ordinary callback matched, and
then it carries the group's display name, the last `initialize`/`cleanup`
matches (or the absent sentinel), the current global callback count as offset,
and the ordinary matches as its window. -/
theorem processTestFile_eq (st : BuilderState) (test_name contents : String) :
    processTestFile st test_name contents =
      (let ms := findMatches test_name contents
       let ord := (ms.filter isOrdinary).map (hookFor st.suites.length)
       let st1 : BuilderState :=
         { st with declarations := st.declarations ++ ms.map externOf }
       if ord.isEmpty then st1 else
         { st1 with
           callbacks := st.callbacks ++ ord,
           suites := st.suites ++ [⟨cleanName test_name,
             ((ms.filter isInitName).getLast?).map (hookFor st.suites.length),
             ((ms.filter isCleanupName).getLast?).map (hookFor st.suites.length),
             st.callbacks.length, ord.length⟩],
           suite_list := st.suite_list ++ [cleanName test_name] }) := by
  unfold processTestFile
  dsimp only
  rw [foldl_fileStep_decls, foldl_fileStep_cbs, foldl_fileStep_init, foldl_fileStep_cleanup]
  simp only [List.nil_append, Option.or_none]

theorem windowsOk_append {acc total : Nat} {ss : List SuiteEntry} (e : SuiteEntry)
    (h : windowsOk acc ss total = true) (he : e.cb_ptr = total) :
    windowsOk acc (ss ++ [e]) (total + e.cb_count) = true := by
  induction ss generalizing acc with
  | nil =>
    simp only [windowsOk, beq_iff_eq] at h
    simp [windowsOk, he, h]
  | cons x xs ih =>
    simp only [windowsOk, Bool.and_eq_true] at h
    simp only [List.cons_append, windowsOk, Bool.and_eq_true]
    exact ⟨h.1, ih h.2⟩

theorem windowsOk_concat {L : List Callback} :
    ∀ (ss : List SuiteEntry) (acc : Nat), windowsOk acc ss L.length = true →
    (ss.map (fun e => (L.drop e.cb_ptr).take e.cb_count)).flatten = L.drop acc := by
  intro ss
  induction ss with
  | nil =>
    intro acc h
    simp only [windowsOk, beq_iff_eq] at h
    simp [h, List.drop_length]
  | cons e rest ih =>
    intro acc h
    simp only [windowsOk, Bool.and_eq_true, beq_iff_eq] at h
    obtain ⟨h1, h2⟩ := h
    simp only [List.map_cons, List.flatten_cons]
    rw [ih _ h2, h1]
    rw [show L.drop (acc + e.cb_count) = (L.drop acc).drop e.cb_count by
      rw [List.drop_drop]]
    exact List.take_append_drop ..

theorem processTestFile_windows {st : BuilderState}
    (h : windowsOk 0 st.suites st.callbacks.length = true) (name contents : String) :
    windowsOk 0 (processTestFile st name contents).suites
      (processTestFile st name contents).callbacks.length = true := by
  rw [processTestFile_eq]
  dsimp only
  split
  · exact h
  · dsimp only
    rw [List.length_append]
    exact windowsOk_append _ h rfl

theorem builderStep_windows {st : BuilderState}
    (h : windowsOk 0 st.suites st.callbacks.length = true)
    (t : List String × String × String) :
    windowsOk 0 (builderStep st t).suites (builderStep st t).callbacks.length = true := by
  unfold builderStep
  split
  · exact processTestFile_windows h _ _
  · exact h

theorem runBuilder_windows (root : Dir) :
    windowsOk 0 (runBuilder root).suites (runBuilder root).callbacks.length = true := by
  unfold runBuilder
  generalize walkFiles root = L
  have main : ∀ (L : List (List String × String × String)) (st : BuilderState),
      windowsOk 0 st.suites st.callbacks.length = true →
      windowsOk 0 ((L.foldl builderStep st).suites)
        ((L.foldl builderStep st).callbacks.length) = true := by
    intro L
    induction L with
    | nil => intro st h; exact h
    | cons t L' ih => intro st h; exact ih _ (builderStep_windows h t)
  exact main L initState rfl

theorem loadFile_error {cfg : Config} {f : String} {e : BuildError}
    (h : loadFile cfg f = .error e) : e = .resourceUnavailable := by
  unfold loadFile at h
  split at h
  · split at h
    · exact absurd h (by simp)
    · simpa using h.symm
  · split at h
    · exact absurd h (by simp)
    · simpa using h.symm

theorem getLibrary_error {cfg : Config} {e : BuildError}
    (h : getLibrary cfg = .error e) : e = .resourceUnavailable := by
  unfold getLibrary at h
  split at h
  · exact absurd h (by simp)
  case _ e1 _ =>
    rename_i heq
    exact (Except.error.inj h) ▸ loadFile_error heq
  case _ h1 h2 =>
    exact (Except.error.inj h) ▸ loadFile_error h1

theorem render_lib_error {st : BuilderState} {cfg : Config} {e : BuildError}
    (h : getLibrary cfg = .error e) : render st cfg = ([], some e) := by
  unfold render
  rw [h]

theorem render_header_error {st : BuilderState} {cfg : Config} {lib : String} {e : BuildError}
    (hl : getLibrary cfg = .ok lib) (hh : loadFile cfg "clay.h" = .error e) :
    (render st cfg).1.map Prod.fst = ["clay_main.c"] ∧ (render st cfg).2 = some e := by
  unfold render
  rw [hl]
  dsimp only
  rw [hh]
  exact ⟨rfl, rfl⟩

theorem render_all_ok {st : BuilderState} {cfg : Config} {lib hdr : String}
    (hl : getLibrary cfg = .ok lib) (hh : loadFile cfg "clay.h" = .ok hdr) :
    (render st cfg).1.map Prod.fst = ["clay_main.c", "clay.h"] ∧ (render st cfg).2 = none := by
  unfold render
  rw [hl]
  dsimp only
  rw [hh]
  exact ⟨rfl, rfl⟩

theorem render_ne_noTestsFound (st : BuilderState) (cfg : Config) :
    (render st cfg).2 ≠ some .noTestsFound := by
  cases hg : getLibrary cfg with
  | error e =>
    rw [render_lib_error hg]
    have := getLibrary_error hg
    subst this
    simp
  | ok lib =>
    cases hh : loadFile cfg "clay.h" with
    | error e =>
      rw [(render_header_error hg hh).2]
      have := loadFile_error hh
      subst this
      simp
    | ok hdr =>
      rw [(render_all_ok hg hh).2]
      simp

/-- Invariant carried through the scanning loop: `self.suite_list` mirrors the
display names of `self.suites`, and every suite's display name is the scoped
rendering of the group name of some walked `*.c` file. -/
theorem builder_fold_names :
    ∀ (L : List (List String × String × String)) (st : BuilderState),
    st.suite_list = st.suites.map (fun s => s.clean_name) →
    (L.foldl builderStep st).suite_list
      = (L.foldl builderStep st).suites.map (fun s => s.clean_name) ∧
    ∀ s ∈ (L.foldl builderStep st).suites,
      s ∈ st.suites ∨ ∃ t ∈ L, matchesDotC t.2.1 = true
        ∧ s.clean_name = cleanName (testName t.1 t.2.1) := by
  intro L
  induction L with
  | nil => exact fun st h => ⟨h, fun s hs => Or.inl hs⟩
  | cons t L' ih =>
    intro st h
    rw [List.foldl_cons]
    have hstep : (builderStep st t).suite_list
        = (builderStep st t).suites.map (fun s => s.clean_name) ∧
        ∀ s ∈ (builderStep st t).suites,
          s ∈ st.suites ∨ (matchesDotC t.2.1 = true
            ∧ s.clean_name = cleanName (testName t.1 t.2.1)) := by
      unfold builderStep
      by_cases hc : matchesDotC t.2.1 = true
      · rw [if_pos hc, processTestFile_eq]
        dsimp only
        split
        · exact ⟨h, fun s hs => Or.inl hs⟩
        · refine ⟨?_, ?_⟩
          · dsimp only
            rw [List.map_append, h]
            rfl
          · intro s hs
            rcases List.mem_append.mp hs with h1 | h2
            · exact Or.inl h1
            · rw [List.mem_singleton] at h2
              subst h2
              exact Or.inr ⟨hc, rfl⟩
      · rw [if_neg hc]
        exact ⟨h, fun s hs => Or.inl hs⟩
    obtain ⟨hA, hB⟩ := ih _ hstep.1
    refine ⟨hA, fun s hs => ?_⟩
    rcases hB s hs with h1 | ⟨t', ht', hmt, hname⟩
    · rcases hstep.2 s h1 with h2 | ⟨hc, hname⟩
      · exact Or.inl h2
      · exact Or.inr ⟨t, List.mem_cons_self t L', hc, hname⟩
    · exact Or.inr ⟨t', List.mem_cons_of_mem t ht', hmt, hname⟩

/-- C1: for every generation run, each Suite's start offset equals the total
number of ordinary callbacks accumulated from all previously assembled suites,
and concatenating each Suite's window (offset, offset+count) over the suites in
order reproduces the full flattened callback list exactly, with no gaps, no
overlaps, and no reordering. -/
theorem c1_offsets_partition (root : Dir) :
    windowsOk 0 (runBuilder root).suites (runBuilder root).callbacks.length = true ∧
    ((runBuilder root).suites.map (fun e =>
        (((runBuilder root).callbacks.drop e.cb_ptr).take e.cb_count))).flatten
      = (runBuilder root).callbacks := by
  refine ⟨runBuilder_windows root, ?_⟩
  simpa using windowsOk_concat (runBuilder root).suites 0 (runBuilder_windows root)

/-- C2 (counterexample): on scenario B's root the tool emits the suite of the
root-level file `c.c` first, so the second suite is `a::b` with offset 1 (not
2) and without an initialize hook — contradicting the claimed order, offset and
hook placement. -/
theorem c2_counterexample :
    (runBuilder scenarioB).suites.map (fun s => s.clean_name) = ["c", "a::b"] ∧
    ((runBuilder scenarioB).suites[1]?).map (fun s => s.cb_ptr) ≠ some 2 ∧
    ((runBuilder scenarioB).suites[1]?).map (fun s => s.initHook.isSome) = some false := by
  decide

/-- C2 (amended): on scenario B's root the tool yields exactly two suites in
walk order with root-level files before subdirectory files: the suite for
`c.c` first with offset 0, count 1 and a populated initialize hook, then the
suite for `a/b.c` with offset 1 (the first suite's count), count 2, and no
hooks. -/
theorem c2_amended :
    (runBuilder scenarioB).suites.map (fun s => s.clean_name) = ["c", "a::b"] ∧
    (runBuilder scenarioB).suites.map (fun s => s.cb_ptr) = [0, 1] ∧
    (runBuilder scenarioB).suites.map (fun s => s.cb_count) = [1, 2] ∧
    (runBuilder scenarioB).suites.map (fun s => s.initHook.isSome) = [true, false] ∧
    (runBuilder scenarioB).suites.map (fun s => s.cleanupHook.isSome) = [false, false] := by
  decide

/-- C3: a run fails with NoTestsFound iff, after visiting every file, zero
suites were produced, and in that case the failure occurs before any output
file is written. -/
theorem c3_no_tests_found (root : Dir) (cfg : Config) :
    ((runClay root cfg).2 = some .noTestsFound ↔ (runBuilder root).suites = []) ∧
    ((runBuilder root).suites = [] → runClay root cfg = ([], some .noTestsFound)) := by
  unfold runClay
  dsimp only
  by_cases hs : (runBuilder root).suites.isEmpty = true
  · rw [if_pos hs]
    have hnil : (runBuilder root).suites = [] := by simpa using hs
    exact ⟨⟨fun _ => hnil, fun _ => rfl⟩, fun _ => rfl⟩
  · rw [if_neg hs]
    have hne : (runBuilder root).suites ≠ [] := by simpa using hs
    exact ⟨⟨fun hc => absurd hc (render_ne_noTestsFound _ _),
           fun hc => absurd hc hne⟩, fun hc => absurd hc hne⟩

/-- C3 (witness): the empty scan root trips NoTestsFound and writes nothing. -/
theorem c3_witness :
    (runClay rootEmpty cfgBundled).2 = some .noTestsFound ∧
    runClay rootEmpty cfgBundled = ([], some .noTestsFound) :=
  ⟨((c3_no_tests_found rootEmpty cfgBundled).1).mpr (by decide),
   (c3_no_tests_found rootEmpty cfgBundled).2 (by decide)⟩

/-- C4: for every group with at least one ordinary callback, any matched
function whose short name is exactly `initialize` or `cleanup` is assigned as
that suite's lifecycle hook, is excluded from the suite's ordinary callback
count and from the global flat callback list, the last match wins when several
share a reserved short name, and a hook slot with no match keeps the explicit
absent sentinel. -/
theorem c4_hooks (st : BuilderState) (test_name contents : String)
    (h : (findMatches test_name contents).filter isOrdinary ≠ []) :
    processTestFile st test_name contents =
      { declarations := st.declarations ++ (findMatches test_name contents).map externOf,
        callbacks := st.callbacks
          ++ ((findMatches test_name contents).filter isOrdinary).map
            (hookFor st.suites.length),
        suites := st.suites ++ [⟨cleanName test_name,
          (((findMatches test_name contents).filter isInitName).getLast?).map
            (hookFor st.suites.length),
          (((findMatches test_name contents).filter isCleanupName).getLast?).map
            (hookFor st.suites.length),
          st.callbacks.length,
          ((findMatches test_name contents).filter isOrdinary).length⟩],
        suite_list := st.suite_list ++ [cleanName test_name] } ∧
    renderHook none = "\x7bNULL, NULL, 0\x7d" := by
  refine ⟨?_, rfl⟩
  rw [processTestFile_eq]
  dsimp only
  have hne : (((findMatches test_name contents).filter isOrdinary).map
      (hookFor st.suites.length)).isEmpty = false := by
    cases hx : (findMatches test_name contents).filter isOrdinary with
    | nil => exact absurd hx h
    | cons y ys => rfl
  rw [if_neg (by simp [hne])]
  simp [List.length_map]

/-- C4 (witness): a group with a duplicated `initialize`, a `cleanup` and one
ordinary test produces one suite whose initialize slot holds the hook entry and
whose flat-table contribution is the single ordinary callback. -/
theorem c4_witness :
    (findMatches "g" textDupHooks).filter isOrdinary ≠ [] ∧
    (processTestFile initState "g" textDupHooks).suites =
      [⟨"g", some ⟨"initialize", "test_g__initialize", 0⟩,
        some ⟨"cleanup", "test_g__cleanup", 0⟩, 0, 1⟩] ∧
    (processTestFile initState "g" textDupHooks).callbacks =
      [⟨"a", "test_g__a", 0⟩] := by
  have h := c4_hooks initState "g" textDupHooks (by decide)
  refine ⟨by decide, ?_, ?_⟩
  · rw [h.1]; decide
  · rw [h.1]; decide

/-- C5: a group whose matched functions are all lifecycle-named (`initialize`
or `cleanup`), with no ordinary test function, produces no suite at all. -/
theorem c5_lifecycle_only (st : BuilderState) (test_name contents : String)
    (h : ∀ m ∈ findMatches test_name contents,
      isInitName m = true ∨ isCleanupName m = true) :
    (processTestFile st test_name contents).suites = st.suites ∧
    (processTestFile st test_name contents).callbacks = st.callbacks ∧
    (processTestFile st test_name contents).suite_list = st.suite_list := by
  rw [processTestFile_eq]
  dsimp only
  have hfil : (findMatches test_name contents).filter isOrdinary = [] := by
    rw [List.filter_eq_nil_iff]
    intro m hm
    rcases h m hm with h1 | h2
    · simp [isOrdinary, h1]
    · simp [isOrdinary, h2]
  rw [hfil]
  exact ⟨rfl, rfl, rfl⟩

/-- C5 (witness): a file with only `initialize` and `cleanup` functions matches
twice but produces no suite. -/
theorem c5_witness :
    (processTestFile initState "h" textHooksOnly).suites = [] ∧
    findMatches "h" textHooksOnly ≠ [] := by
  have h := c5_lifecycle_only initState "h" textHooksOnly (by decide)
  exact ⟨h.1, by decide⟩

/-- C6 (counterexample): with a configured external support directory in which
only `clay.h` is unreadable, the run fails with ResourceUnavailable but the
generated driver source has already been written — refuting "neither the
generated driver source file nor the copied header file is written". -/
theorem c6_counterexample :
    (runClay scenarioB cfgHeaderMissing).1.map Prod.fst = ["clay_main.c"] ∧
    (runClay scenarioB cfgHeaderMissing).2 = some .resourceUnavailable := by
  decide

/-- C6 (amended): if a configured support-library source module (`clay.c` or
`clay_sandbox.c`) cannot be read, the run aborts before any output is written;
if those load but the header `clay.h` cannot be read, the run aborts after the
driver source alone has been written. -/
theorem c6_amended (st : BuilderState) (cfg : Config) :
    (∀ e, getLibrary cfg = .error e → render st cfg = ([], some e)) ∧
    (∀ lib e, getLibrary cfg = .ok lib → loadFile cfg "clay.h" = .error e →
      (render st cfg).1.map Prod.fst = ["clay_main.c"] ∧ (render st cfg).2 = some e) :=
  ⟨fun _ h => render_lib_error h, fun _ _ hl hh => render_header_error hl hh⟩

/-- C6 (witness): both failure modes at concrete configurations. -/
theorem c6_witness :
    render (runBuilder scenarioB) cfgAllMissing = ([], some .resourceUnavailable) ∧
    (render (runBuilder scenarioB) cfgHeaderMissing).1.map Prod.fst = ["clay_main.c"] :=
  ⟨(c6_amended (runBuilder scenarioB) cfgAllMissing).1 .resourceUnavailable rfl,
   ((c6_amended (runBuilder scenarioB) cfgHeaderMissing).2 "LIB\nLIB" .resourceUnavailable
     rfl rfl).1⟩

/-- C7 (counterexample): for the group name `a.b` — which the tree walker
derives from the accepted file name `a.b.c` — the matcher reports the
declaration `test_axb__foo`, which is not named `test_a.b__foo`: the dot is
spliced into the pattern as a regex wildcard, so the claimed "named
test_G__<shortname>" characterization fails. -/
theorem c7_counterexample :
    (findMatches "a.b" textDotG).map (fun m => m.symbol) = ["test_axb__foo"] ∧
    (findMatches "a.b" textDotG).map (fun m => m.shortName) = ["foo"] ∧
    ("test_axb__foo" : String) ≠ "test_" ++ "a.b" ++ "__" ++ "foo" ∧
    testGroupNames rootDot = ["a.b"] := by
  decide

/-- C7 (amended): for every group name G consisting only of word characters and
every source text, the matcher produces exactly the ordered sequence of
line-anchored structural matches (no position is missed by the scanner's
skipping); every produced match is named `test_G__<shortname>` with a nonempty
word-character short name; and a text with zero matches contributes nothing and
is not an error. -/
theorem c7_amended (G text : String) (hG : G.toList.all isWordChar = true) :
    findMatches G text = specMatches G text ∧
    (∀ m ∈ findMatches G text,
      m.symbol = "test_" ++ G ++ "__" ++ m.shortName ∧
      m.shortName ≠ "" ∧ m.shortName.toList.all isWordChar = true) ∧
    (findMatches G text = [] → ∀ st, processTestFile st G text = st) := by
  have hG' : allWord G.toList := fun c hc => List.all_eq_true.mp hG c hc
  refine ⟨scanCore_eq_scanSpec hG' _ _, ?_, ?_⟩
  · intro m hm
    obtain ⟨s', n, hs'⟩ := scanCore_mem hm
    obtain ⟨hsym, hne, hword⟩ := matchAt_shape hG' hs'
    refine ⟨?_, hne, hword⟩
    rw [hsym]
    apply String.ext
    show "test_".toList ++ G.toList ++ "__".toList ++ m.shortName.toList = _
    simp [String.data_append, String.toList, List.append_assoc]
  · intro hnil st
    rw [processTestFile_eq]
    dsimp only
    rw [hnil]
    rcases st with ⟨d, cb, su, sl⟩
    simp

/-- C7 (witness): on scenario A's file the skipping scanner and the spec-side
scanner agree and report the single declaration. -/
theorem c7_witness :
    findMatches "math" textMath = specMatches "math" textMath ∧
    (findMatches "math" textMath).map (fun m => m.symbol) = ["test_math__add"] :=
  ⟨(c7_amended "math" textMath (by decide)).1, by decide⟩

/-- C8 (counterexample): the walk accepts the file `a-b.c`, and the derived
TestGroupName `a-b` is not a valid identifier fragment. -/
theorem c8_counterexample :
    testGroupNames rootHyphen = ["a-b"] ∧ isIdentFrag "a-b" = false := by
  decide

theorem pyJoin_all_word {sep : String} (hsep : sep.toList.all isWordChar = true) :
    ∀ L : List String, (∀ s ∈ L, s.toList.all isWordChar = true) →
    (pyJoin sep L).toList.all isWordChar = true := by
  intro L
  induction L with
  | nil => intro _; rfl
  | cons s rest ih =>
    intro h
    cases rest with
    | nil => exact h s (by simp)
    | cons t ts =>
      have h1 := h s (by simp)
      have h2 := ih (fun x hx => h x (List.mem_cons_of_mem s hx))
      show ((s ++ sep ++ pyJoin sep (t :: ts))).toList.all isWordChar = true
      rw [List.all_eq_true] at h1 h2 hsep ⊢
      intro c hc
      simp only [String.toList, String.data_append, List.mem_append] at hc
      rcases hc with (hc | hc) | hc
      · exact h1 c hc
      · exact hsep c hc
      · exact h2 c hc

/-- C8 (amended): the derived TestGroupName is a valid identifier fragment
whenever every directory segment and the file stem consist only of word
characters (path separators are replaced by underscores, which are word
characters, and the `.c` extension is stripped). -/
theorem c8_amended (mr : List String) (stem : String)
    (hmr : ∀ seg ∈ mr, seg.toList.all isWordChar = true)
    (hstem : stem.toList.all isWordChar = true) :
    isIdentFrag (testName mr (stem ++ ".c")) = true := by
  have hstrip : stripExt (stem ++ ".c") = stem := by
    unfold stripExt
    have hdata : (stem ++ ".c").toList = stem.toList ++ ['.', 'c'] := by
      simp [String.toList, String.data_append]
    rw [hdata]
    rw [show stem.toList ++ ['.', 'c'] = (stem.toList ++ ['.']) ++ ['c'] by simp]
    rw [List.dropLast_concat, List.dropLast_concat]
    rfl
  unfold testName
  rw [hstrip]
  apply pyJoin_all_word (by decide)
  intro s hs
  rcases List.mem_append.mp hs with h1 | h2
  · exact hmr s h1
  · rw [List.mem_singleton] at h2
    exact h2 ▸ hstem

/-- C8 (witness): the amended invariant at a concrete nested path. -/
theorem c8_witness : isIdentFrag (testName ["dir1", "dir2"] ("file_3" ++ ".c")) = true :=
  c8_amended ["dir1", "dir2"] "file_3" (by decide) (by decide)

/-- Positional correspondence between suites and the files that produced them:
folding the walk appends, in order, exactly one suite per suite-producing file,
and that suite's display name is the scoped rendering of that file's own group
name. -/
theorem builder_fold_clean_names :
    ∀ (L : List (List String × String × String)) (st : BuilderState),
    (L.foldl builderStep st).suites.map (fun s => s.clean_name)
      = st.suites.map (fun s => s.clean_name)
        ++ (L.filter producesSuite).map (fun t => cleanName (testName t.1 t.2.1)) := by
  intro L
  induction L with
  | nil => intro st; simp
  | cons t L' ih =>
    intro st
    rw [List.foldl_cons, List.filter_cons]
    by_cases hc : matchesDotC t.2.1 = true
    · cases hx : (findMatches (testName t.1 t.2.1) t.2.2).filter isOrdinary with
      | nil =>
        have hps : producesSuite t = false := by simp [producesSuite, hc, hx]
        have hstep : (builderStep st t).suites = st.suites := by
          unfold builderStep
          rw [if_pos hc, processTestFile_eq]
          dsimp only
          rw [hx]
          rfl
        rw [ih, hstep, hps]
        simp
      | cons y ys =>
        have hps : producesSuite t = true := by simp [producesSuite, hc, hx]
        have hstep : (builderStep st t).suites.map (fun s => s.clean_name)
            = st.suites.map (fun s => s.clean_name)
              ++ [cleanName (testName t.1 t.2.1)] := by
          unfold builderStep
          rw [if_pos hc, processTestFile_eq]
          dsimp only
          rw [hx]
          rw [if_neg (by simp)]
          dsimp only
          rw [List.map_append]
          rfl
        rw [ih, hstep, hps]
        simp
    · have hps : producesSuite t = false := by simp [producesSuite, hc]
      have hstep : builderStep st t = st := by
        unfold builderStep
        rw [if_neg hc]
      rw [ih, hstep, hps]
      simp

/-- C9: for every generation result, the sequence of suite display names
equals, position by position, the group names of the suite-producing walked
files in walk order with every underscore rendered as the scoping separator
`::` — so each suite's display name is the scoped rendering of its own group's
name — and the selector string is the ", "-joined list of all suite display
names in suite order. -/
theorem c9_display_names (root : Dir) :
    (runBuilder root).suites.map (fun s => s.clean_name)
      = ((walkFiles root).filter producesSuite).map
          (fun t => cleanName (testName t.1 t.2.1)) ∧
    (runBuilder root).suite_list = (runBuilder root).suites.map (fun s => s.clean_name) ∧
    suitesStr (runBuilder root)
      = pyJoin ", " ((runBuilder root).suites.map (fun s => s.clean_name)) := by
  unfold runBuilder suitesStr
  have h := builder_fold_names (walkFiles root) initState rfl
  refine ⟨?_, h.1, by rw [h.1]⟩
  simpa using builder_fold_clean_names (walkFiles root) initState

/-- C9 (witness): on scenario B the display-name sequence is exactly the scoped
group names of the two producing files, in walk order, and the selector joins
them. -/
theorem c9_witness :
    (runBuilder scenarioB).suites.map (fun s => s.clean_name)
      = ((walkFiles scenarioB).filter producesSuite).map
          (fun t => cleanName (testName t.1 t.2.1)) ∧
    ((walkFiles scenarioB).filter producesSuite).map
        (fun t => cleanName (testName t.1 t.2.1)) = ["c", "a::b"] ∧
    suitesStr (runBuilder scenarioB) = "c, a::b" :=
  ⟨(c9_display_names scenarioB).1, by decide, by decide⟩

/-- C10: for every matched candidate function in every file an extern
declaration is appended to the global declaration list at match time, so a
group that produces no suite still contributes extern declarations even though
none of its functions are registered in any table. -/
theorem c10_externs (st : BuilderState) (test_name contents : String) :
    (processTestFile st test_name contents).declarations
      = st.declarations ++ (findMatches test_name contents).map externOf ∧
    ((findMatches test_name contents).filter isOrdinary = [] →
      (processTestFile st test_name contents).callbacks = st.callbacks ∧
      (processTestFile st test_name contents).suites = st.suites) := by
  rw [processTestFile_eq]
  dsimp only
  constructor
  · split <;> rfl
  · intro hfil
    rw [hfil]
    exact ⟨rfl, rfl⟩

/-- C10 (witness): a hooks-only group registers nothing but still contributes
its two extern declarations. -/
theorem c10_witness :
    (processTestFile initState "h" textHooksOnly).declarations
      = ["extern void test_h__initialize(void);", "extern void test_h__cleanup(void);"] ∧
    (processTestFile initState "h" textHooksOnly).suites = [] ∧
    (processTestFile initState "h" textHooksOnly).callbacks = [] := by
  have h := c10_externs initState "h" textHooksOnly
  refine ⟨?_, (h.2 (by decide)).2, (h.2 (by decide)).1⟩
  rw [h.1]
  decide
